import Mathlib

set_option linter.unusedSectionVars false

/-!
# Verification of the warehouse picking control plane

Shallow embedding of the server core of the `TU_Capstone_Design`
repository (`webots_simulation/server/`): the space-time A* path planner
with prioritized multi-robot planning (`path_planner.py`), the shelf
registry (`shelf_manager.py`), the task store and decomposer
(`task_manager.py`), and the robot registry (`robot_manager.py`).

Modelling conventions:
* Python `dict`s are modelled as ordered association lists with unique-key
  update (`dupdate`) and first-hit lookup (`alookup`); this reproduces
  Python's insertion-ordered, last-write-wins dictionary semantics.
* Python `set`s used for reservation tables are modelled as lists with
  membership; only membership is ever observed by the code.
* Python `float` costs and heuristic values are modelled as `ℚ`.  The
  source heuristic takes a square root (`_heuristic`), which has no exact
  rational counterpart; every planner definition is therefore parametric
  in the heuristic function `h : Int → Int → ℚ`.  None of the properties
  proved below depend on the numeric values of costs or heuristics — they
  only order the open list — so this parametrisation is faithful for the
  statements at hand.  Where a claim itself talks about Euclidean
  distances we use the squared Euclidean distance `heuristicSq`, which
  induces the same order as the source's `sqrt`-based distance.
* The unbounded `while` loops of the source are modelled with an explicit
  fuel parameter; all theorems quantify over the fuel.
-/

namespace Warehouse

/-- A space-time state `(node, t)` as used by `astar_with_time`. -/
abbrev STState := Int × Nat

section Dict

variable {α : Type} {β : Type} [DecidableEq α]

/-- First-hit association-list lookup, the model of Python `dict.get`. -/
def alookup : List (α × β) → α → Option β
  | [], _ => none
  | (k', v) :: rest, k => if k = k' then some v else alookup rest k

/-- In-place dictionary write: overwrite the entry for `k` if present,
otherwise append a fresh entry at the end (Python `d[k] = v`). -/
def dupdate : List (α × β) → α → β → List (α × β)
  | [], k, v => [(k, v)]
  | (k', v') :: rest, k, v =>
      if k' = k then (k, v) :: rest else (k', v') :: dupdate rest k v

end Dict

/-! ## `PathPlanner.compress_to_node_path` (claim C9)

Source (`path_planner.py`):
```
node_path = []
last = None
for node, _t in timed_path:
    if last is None or node != last:
        node_path.append(node)
        last = node
return node_path
```
-/

/-- The loop of `compress_to_node_path`; `last` is the last appended node. -/
def compressGo : Option Int → List STState → List Int
  | _, [] => []
  | none, (node, _t) :: rest => node :: compressGo (some node) rest
  | some l, (node, _t) :: rest =>
      if node ≠ l then node :: compressGo (some node) rest
      else compressGo (some l) rest

/-- `PathPlanner.compress_to_node_path`: drop consecutive duplicate nodes of a
timed path. -/
def compress_to_node_path (timedPath : List STState) : List Int :=
  compressGo none timedPath

/-! ## `PathPlanner.astar_with_time` and `prioritized_planning`

The planner is parametric in the cost type `C` (Python `float` in the
source; every claim proved below is independent of the numeric values, so
`C` only needs the ordered-field structure the code uses: `<` for the heap
and the g-score test, `+` for accumulating costs, `0`/`1` for the initial
g-score and the wait-step cost), and in the heuristic
`h : Int → Int → C` (`PathPlanner._heuristic`, Euclidean distance in the
source). -/

section Planner

variable {C : Type} [LinearOrder C] [Add C] [Zero C] [One C]

/-- An open-list entry `(f, g, node, t)` as pushed by `heapq.heappush`. -/
abbrev HeapEntry (C : Type) := C × C × Int × Nat

/-- The space-time state carried by a heap entry. -/
def stateOf (e : HeapEntry C) : STState := (e.2.2.1, e.2.2.2)

/-- Lexicographic comparison of heap entries, the order `heapq` uses on the
tuples `(f, g, node, t)`. -/
def entryLt (a b : HeapEntry C) : Bool :=
  if a.1 < b.1 then true
  else if b.1 < a.1 then false
  else if a.2.1 < b.2.1 then true
  else if b.2.1 < a.2.1 then false
  else if a.2.2.1 < b.2.2.1 then true
  else if b.2.2.1 < a.2.2.1 then false
  else a.2.2.2 < b.2.2.2

/-- The minimal entry of the open list (`heapq.heappop` returns the smallest
tuple; among equal tuples the choice is indifferent because the values are
identical). -/
def findMin : List (HeapEntry C) → Option (HeapEntry C)
  | [] => none
  | e :: es => some (es.foldl (fun m x => if entryLt x m then x else m) e)

/-- `heapq.heappop`: remove and return the minimal entry of the open list. -/
def popMin (l : List (HeapEntry C)) : Option (HeapEntry C × List (HeapEntry C)) :=
  match findMin l with
  | none => none
  | some e => some (e, l.erase e)

/-- The mutable planner state of one `astar_with_time` call: the open heap,
the `came_from` parent map and the `g_score` map. -/
structure AState (C : Type) where
  openHeap : List (HeapEntry C)
  cameFrom : List (STState × STState)
  gScore : List (STState × C)

/-- The test `tentative_g < g_score.get(next_state, float("inf"))`: a
missing g-score entry is `inf`, so any candidate improves on it. -/
def gImproved (gs : List (STState × C)) (s : STState) (x : C) : Bool :=
  match alookup gs s with
  | none => true
  | some gv => decide (x < gv)

/-- The inner `for nxt_node, step_cost in neighbors` loop of
`astar_with_time`: reservation checks, g-score test, push. -/
def expand (resN : List STState) (resE : List (Int × Int × Nat))
    (hfun : Int → C) (cur : Int) (t : Nat) (g : C) :
    List (Int × C) → AState C → AState C
  | [], st => st
  | (nxt, cost) :: rest, st =>
      if (nxt, t + 1) ∈ resN then
        expand resN resE hfun cur t g rest st
      else if nxt ≠ cur ∧ (nxt, cur, t) ∈ resE then
        expand resN resE hfun cur t g rest st
      else if gImproved st.gScore (nxt, t + 1) (g + cost) then
        expand resN resE hfun cur t g rest
          { openHeap := (g + cost + hfun nxt, g + cost, nxt, t + 1) :: st.openHeap,
            cameFrom := dupdate st.cameFrom (nxt, t + 1) (cur, t),
            gScore := dupdate st.gScore (nxt, t + 1) (g + cost) }
      else
        expand resN resE hfun cur t g rest st

/-- Path reconstruction (`while cur in came_from: ...; path.reverse()`).
The fuel bounds the walk; the invariant proved below shows `t + 1` steps
always suffice, so the bound is never hit on reachable states. -/
def reconstruct (cf : List (STState × STState)) : Nat → STState → List STState
  | 0, cur => [cur]
  | fuel + 1, cur =>
      match alookup cf cur with
      | none => [cur]
      | some prev => reconstruct cf fuel prev ++ [cur]

/-- The `while open_heap:` loop of `astar_with_time`, with explicit fuel. -/
def astarLoop (graph : Int → List (Int × C)) (h : Int → Int → C) (goal : Int)
    (resN : List STState) (resE : List (Int × Int × Nat)) (maxTime : Nat) :
    Nat → AState C → Option (List STState)
  | 0, _ => none
  | fuel + 1, st =>
      match popMin st.openHeap with
      | none => none
      | some ((_f, g, cur, t), rest) =>
          if cur = goal then
            some (reconstruct st.cameFrom (t + 1) (cur, t))
          else if maxTime ≤ t then
            astarLoop graph h goal resN resE maxTime fuel { st with openHeap := rest }
          else
            astarLoop graph h goal resN resE maxTime fuel
              (expand resN resE (fun n => h n goal) cur t g
                ((cur, 1) :: graph cur) { st with openHeap := rest })

/-- `PathPlanner.astar_with_time`: time-expanded A* from `start` at `t = 0`
to any `(goal, t)` state, avoiding reserved nodes and swap-reserved edges. -/
def astar_with_time (graph : Int → List (Int × C)) (h : Int → Int → C)
    (start goal : Int) (resN : List STState) (resE : List (Int × Int × Nat))
    (maxTime fuel : Nat) : Option (List STState) :=
  astarLoop graph h goal resN resE maxTime fuel
    { openHeap := [(h start goal, 0, start, 0)],
      cameFrom := [],
      gScore := [((start, 0), 0)] }

/-- `PathPlanner.plan_single_robot`: A* with empty reservation tables. -/
def plan_single_robot (graph : Int → List (Int × C)) (h : Int → Int → C)
    (start goal : Int) (maxTime fuel : Nat) : Option (List STState) :=
  astar_with_time graph h start goal [] [] maxTime fuel

/-- The true moves of a timed path: `(node_i, node_j, t_i)` for each
consecutive pair with `node_j ≠ node_i` — exactly the tuples
`prioritized_planning` adds to `reserved_edges`. -/
def movesOf : List STState → List (Int × Int × Nat)
  | (u, t) :: (v, t') :: rest =>
      (if v ≠ u then [(u, v, t)] else []) ++ movesOf ((v, t') :: rest)
  | _ => []

/-- The goal-stay reservations: `(goal_node, goal_t + dt)` for
`dt ∈ {1, …, stay}` where `(goal_node, goal_t)` is the last path state. -/
def stayReservations (p : List STState) (stay : Nat) : List STState :=
  match p.getLast? with
  | none => []
  | some (gn, gt) => (List.range stay).map fun dt => (gn, gt + dt + 1)

/-- The `for rid in range(num_robots)` loop of `prioritized_planning`:
plan each robot in priority order against the accumulated reservation
table; abort the whole batch on the first failure. -/
def prioritizedLoop (graph : Int → List (Int × C)) (h : Int → Int → C)
    (maxTime stay fuel : Nat) :
    List (Int × Int) → List STState → List (Int × Int × Nat) →
    Option (List (List STState))
  | [], _, _ => some []
  | (s, g) :: rest, resN, resE =>
      match astar_with_time graph h s g resN resE maxTime fuel with
      | none => none
      | some p =>
          match prioritizedLoop graph h maxTime stay fuel rest
              (resN ++ p ++ stayReservations p stay) (resE ++ movesOf p) with
          | none => none
          | some ps => some (p :: ps)

/-- `PathPlanner.prioritized_planning`. -/
def prioritizedPlanning (graph : Int → List (Int × C)) (h : Int → Int → C)
    (starts goals : List Int) (maxTime stay fuel : Nat) :
    Option (List (List STState)) :=
  prioritizedLoop graph h maxTime stay fuel (starts.zip goals) [] []

/-! ### Planner invariants -/

/-- One legal link of a space-time path produced against reservation tables
`resN`/`resE`: the time advances by one, the node stays or follows an edge
of the graph, the target state is unreserved, and a true move does not swap
with a reserved edge. -/
def linkOk (graph : Int → List (Int × C)) (resN : List STState)
    (resE : List (Int × Int × Nat)) (a b : STState) : Prop :=
  b.2 = a.2 + 1 ∧ (b.1 = a.1 ∨ b.1 ∈ (graph a.1).map Prod.fst) ∧
    b ∉ resN ∧ (b.1 ≠ a.1 → (b.1, a.1, a.2) ∉ resE)

/-- The shape of every path `astar_with_time` can return: it starts at
`(start, 0)` and every consecutive pair is a legal link. -/
def astarOut (graph : Int → List (Int × C)) (start : Int)
    (resN : List STState) (resE : List (Int × Int × Nat))
    (p : List STState) : Prop :=
  p.head? = some (start, 0) ∧ List.Chain' (linkOk graph resN resE) p

/-- Invariant of the parent map: every entry is a legal link whose parent is
the start state or again a key of the map. -/
def cfInv (graph : Int → List (Int × C)) (start : Int)
    (resN : List STState) (resE : List (Int × Int × Nat))
    (cf : List (STState × STState)) : Prop :=
  ∀ k v, alookup cf k = some v →
    linkOk graph resN resE v k ∧ (v = ((start : Int), (0 : Nat)) ∨ (alookup cf v).isSome)

/-- Invariant of the open list: every entry's state is the start state or a
key of the parent map. -/
def heapInv (start : Int) (cf : List (STState × STState))
    (heap : List (HeapEntry C)) : Prop :=
  ∀ e ∈ heap, stateOf e = ((start : Int), (0 : Nat)) ∨ (alookup cf (stateOf e)).isSome

/-- The conclusion of claim C2 for one timed path. -/
def timedPathOk (graph : Int → List (Int × C)) (p : List STState) : Prop :=
  (∀ s ∈ p.head?, s.2 = 0) ∧
    List.Chain' (fun a b : STState =>
      b.2 = a.2 + 1 ∧ (b.1 = a.1 ∨ b.1 ∈ (graph a.1).map Prod.fst)) p

end Planner

/-- A small concrete instance of the loaded graph (`0 → 1 → 2` with the
reverse edge `1 → 0`, unit costs) used to evaluate the planner on concrete
inputs. -/
def testGraph : Int → List (Int × Int) :=
  fun u => if u = 0 then [(1, 1)] else if u = 1 then [(0, 1), (2, 1)] else []

/-- A concrete heuristic for evaluation (its values are irrelevant to every
property proved here). -/
def testH : Int → Int → Int := fun _ _ => 0

/-! ## `PathPlanner._load_map` (claim C5)

Source:
```
self.nodes = {int(n["id"]): (float(n.get("x", 0.0)), float(n.get("y", 0.0)))
              for n in data["nodes"]}
self.graph = {nid: [] for nid in self.nodes.keys()}
for e in data["edges"]:
    a, b, c = int(e["from"]), int(e["to"]), float(e.get("cost", 1.0))
    self.graph.setdefault(a, []).append((b, c))
```
-/

/-- Append `v` to the list stored under `k`, creating the key at the end if
absent: Python's `d.setdefault(k, []).append(v)` on a dict of lists. -/
def dappend {α β : Type} [DecidableEq α] : List (α × List β) → α → β → List (α × List β)
  | [], k, v => [(k, [v])]
  | (k', vs) :: rest, k, v =>
      if k' = k then (k', vs ++ [v]) :: rest else (k', vs) :: dappend rest k v

/-- A parsed node record of `map.json`. -/
structure MapNode (C : Type) where
  id : Int
  x : C
  y : C
deriving DecidableEq

/-- A parsed edge record of `map.json`; `src`/`dst` are the JSON `from`/`to`
fields (`from` is a Lean keyword). -/
structure MapEdge (C : Type) where
  src : Int
  dst : Int
  cost : C
deriving DecidableEq

/-- The parsed content of `map.json`. -/
structure MapData (C : Type) where
  nodes : List (MapNode C)
  edges : List (MapEdge C)
deriving DecidableEq

/-- The planner state `_load_map` produces: the `nodes` dict and the
adjacency dict `graph`. -/
structure LoadedMap (C : Type) where
  nodes : List (Int × C × C)
  graph : List (Int × List (Int × C))
deriving DecidableEq

/-- `PathPlanner._load_map`: build the node dict, initialise one empty
adjacency per declared node, then insert every edge with `setdefault` —
no validation of the endpoints whatsoever. -/
def loadMap {C : Type} (data : MapData C) : LoadedMap C :=
  let nodes := data.nodes.foldl (fun acc n => dupdate acc n.id (n.x, n.y)) []
  let graph0 : List (Int × List (Int × C)) := nodes.map fun p => (p.1, [])
  let graph := data.edges.foldl (fun g e => dappend g e.src (e.dst, e.cost)) graph0
  { nodes := nodes, graph := graph }

/-- The squared Euclidean distance between two stored nodes, with the
source's `(0, 0)` default for missing ids.  This is `PathPlanner._heuristic`
up to the final square root; since squaring is monotone on non-negative
reals, it induces exactly the same order on distances. -/
def heuristicSq (nodes : List (Int × Int × Int)) (a b : Int) : Int :=
  ((alookup nodes a).getD (0, 0)).1 * ((alookup nodes a).getD (0, 0)).1
    - 2 * ((alookup nodes a).getD (0, 0)).1 * ((alookup nodes b).getD (0, 0)).1
    + ((alookup nodes b).getD (0, 0)).1 * ((alookup nodes b).getD (0, 0)).1
    + ((alookup nodes a).getD (0, 0)).2 * ((alookup nodes a).getD (0, 0)).2
    - 2 * ((alookup nodes a).getD (0, 0)).2 * ((alookup nodes b).getD (0, 0)).2
    + ((alookup nodes b).getD (0, 0)).2 * ((alookup nodes b).getD (0, 0)).2

/-! ## `ShelfManager` (claims C4, C6, C8) -/

/-- `ShelfStatus` of `shelf_manager.py` (`IN_PLACE` is the spec's
`AT_REST`). -/
inductive ShelfStatus
  | inPlace
  | carried
  | atWorkstation
deriving DecidableEq

/-- A `Shelf` record. -/
structure Shelf where
  shelfId : Int
  label : String
  items : List String
  homeNode : Int
  currentNode : Int
  status : ShelfStatus
  carriedBy : Option Int
deriving DecidableEq

/-- The mutable state of `ShelfManager`. -/
structure SMState where
  shelves : List (Int × Shelf)
  itemToShelf : List (String × Int)
  allShelfNodes : List Int
deriving DecidableEq

/-- The loop of `find_shelves_for_items`, threading the insertion-ordered
result dict; unmapped items are skipped with a warning. -/
def findShelvesGo (itemToShelf : List (String × Int)) :
    List String → List (Int × List String) → List (Int × List String)
  | [], acc => acc
  | item :: rest, acc =>
      match alookup itemToShelf item with
      | some sid => findShelvesGo itemToShelf rest (dappend acc sid item)
      | none => findShelvesGo itemToShelf rest acc

/-- `ShelfManager.find_shelves_for_items`. -/
def find_shelves_for_items (sm : SMState) (items : List String) :
    List (Int × List String) :=
  findShelvesGo sm.itemToShelf items []

/-- `ShelfManager.mark_shelf_picked_up`: returns `False` only for an unknown
shelf id; otherwise unconditionally sets `CARRIED`/`carried_by`. -/
def mark_shelf_picked_up (sm : SMState) (shelfId robotId : Int) : Bool × SMState :=
  match alookup sm.shelves shelfId with
  | none => (false, sm)
  | some shelf =>
      let shelf' := { shelf with status := ShelfStatus.carried,
                                 carriedBy := some robotId }
      (true, { sm with shelves := dupdate sm.shelves shelfId shelf' })

/-- `ShelfManager.get_empty_shelf_positions`. -/
def get_empty_shelf_positions (sm : SMState) : List Int :=
  sm.allShelfNodes.filter fun n =>
    n ∉ (sm.shelves.map Prod.snd).filterMap fun s =>
      if s.status = ShelfStatus.inPlace then some s.currentNode else none

/-- `ShelfManager.find_nearest_empty_position`: strict-improvement scan, so
the first minimum in iteration order wins (as with Python's `<` update). -/
def find_nearest_empty_position {C : Type} [LinearOrder C] (hs : Int → Int → C)
    (sm : SMState) (fromNode : Int) : Option Int :=
  ((get_empty_shelf_positions sm).foldl
    (fun best node =>
      match best with
      | none => some (node, hs fromNode node)
      | some (bn, bd) =>
          if hs fromNode node < bd then some (node, hs fromNode node)
          else some (bn, bd))
    none).map Prod.fst

/-! ## `TaskManager` (claims C3, C4, C6) -/

/-- `TaskStatus` of `task_manager.py`. -/
inductive TaskStatus
  | pending
  | inProgress
  | completed
  | failed
deriving DecidableEq

/-- `SubTaskType` of `task_manager.py`. -/
inductive SubTaskType
  | goToShelf
  | pickupShelf
  | deliverToWs
  | waitPicking
  | returnShelf
  | forwardShelf
deriving DecidableEq

/-- A `SubTask` record. -/
structure SubTask where
  subtaskId : String
  subtaskType : SubTaskType
  shelfId : Option Int
  targetNode : Int
  itemsToPick : List String
  status : TaskStatus
  assignedRobot : Option Int
deriving DecidableEq

/-- A `PickingTask` record (`created_at`, a wall-clock float used only for
display, is omitted). -/
structure PickingTask where
  taskId : String
  workstationId : Int
  items : List String
  shelfSequence : List Int
  subtasks : List SubTask
  currentSubtaskIdx : Nat
  status : TaskStatus
  itemsPicked : List String
  assignedRobot : Option Int
deriving DecidableEq

/-- One entry of the `shelf_demand` waiting list. -/
structure Demand where
  taskId : String
  workstationId : Int
  items : List String
deriving DecidableEq

/-- The mutable state of `TaskManager` (the shelf manager and planner it
holds are passed separately). -/
structure TMState where
  tasks : List (String × PickingTask)
  shelfDemand : List (Int × List Demand)
deriving DecidableEq

/-- `PickingTask.get_current_subtask`. -/
def get_current_subtask (t : PickingTask) : Option SubTask :=
  t.subtasks.get? t.currentSubtaskIdx

/-- In-place update of the element at an index (out of range: no change). -/
def modifyIdx {α : Type} (f : α → α) : Nat → List α → List α
  | _, [] => []
  | 0, x :: xs => f x :: xs
  | n + 1, x :: xs => x :: modifyIdx f n xs

/-- `PickingTask.advance_subtask`: mark the current sub-task completed,
advance the cursor, mark the new current sub-task (if any) in progress. -/
def advance_subtask (t : PickingTask) : PickingTask :=
  let done := modifyIdx (fun st => { st with status := TaskStatus.completed })
    t.currentSubtaskIdx t.subtasks
  let t1 := if t.currentSubtaskIdx < t.subtasks.length then
      { t with subtasks := done }
    else t
  let t2 := { t1 with currentSubtaskIdx := t1.currentSubtaskIdx + 1 }
  let started := modifyIdx (fun st => { st with status := TaskStatus.inProgress })
    t2.currentSubtaskIdx t2.subtasks
  match get_current_subtask t2 with
  | some _ => { t2 with subtasks := started }
  | none => t2

/-- The responses `handle_item_picked` / `_decide_shelf_action` build. -/
inductive PickAction
  | errorMsg (msg : String)
  | continuePicking (remainingOnShelf totalRemaining : List String)
  | shelfDoneForward (forwardToWs : Int) (shelfId : Option Int)
  | shelfDoneReturn (returnTo : Int) (shelfId : Option Int)
deriving DecidableEq

/-- The loop of `TaskManager._check_shelf_needed_elsewhere`: return the
workstation of the FIRST demand (in registration order) from another
workstation whose task is still pending/in-progress and still needs an item
of this shelf. -/
def cseGo (tasks : List (String × PickingTask)) (currentWs : Int) :
    List Demand → Option Int
  | [] => none
  | d :: rest =>
      if d.workstationId ≠ currentWs then
        match alookup tasks d.taskId with
        | some ot =>
            if ot.status = TaskStatus.pending ∨ ot.status = TaskStatus.inProgress then
              if d.items.filter (fun i => i ∉ ot.itemsPicked) ≠ [] then
                some d.workstationId
              else cseGo tasks currentWs rest
            else cseGo tasks currentWs rest
        | none => cseGo tasks currentWs rest
      else cseGo tasks currentWs rest

/-- `TaskManager._check_shelf_needed_elsewhere`. -/
def check_shelf_needed_elsewhere (tm : TMState) (shelfId : Option Int)
    (currentWs : Int) : Option Int :=
  match shelfId with
  | none => none
  | some sid => cseGo tm.tasks currentWs ((alookup tm.shelfDemand sid).getD [])

/-- The candidacy test of one demand entry, as a boolean (used to state the
first-match characterisation of `_check_shelf_needed_elsewhere`). -/
def candidateDemand (tasks : List (String × PickingTask)) (currentWs : Int)
    (d : Demand) : Bool :=
  decide (d.workstationId ≠ currentWs) &&
    match alookup tasks d.taskId with
    | some ot =>
        (decide (ot.status = TaskStatus.pending) ||
          decide (ot.status = TaskStatus.inProgress)) &&
          decide (d.items.filter (fun i => i ∉ ot.itemsPicked) ≠ [])
    | none => false

/-- `TaskManager._decide_shelf_action`.  The Python method mutates the task
object held in `self.tasks`; the model returns the updated store together
with the response.  (In the return branch with no empty parking slot and a
`None` shelf id Python would store `None` into the integer `target_node`
field; that corner — unreachable from `create_task` output, where every
shelf sub-task carries its shelf id — is modelled with node `0`.) -/
def decide_shelf_action {C : Type} [LinearOrder C] (hs : Int → Int → C)
    (sm : SMState) (tm : TMState) (task : PickingTask) (shelfId : Option Int) :
    TMState × PickAction :=
  let forwardWs := check_shelf_needed_elsewhere tm shelfId task.workstationId
  let task2 := advance_subtask task
  match forwardWs, get_current_subtask task2 with
  | some ws, some _ =>
      let forwarded := modifyIdx
        (fun st => { st with subtaskType := SubTaskType.forwardShelf,
                             targetNode := ws })
        task2.currentSubtaskIdx task2.subtasks
      let task3 := { task2 with subtasks := forwarded }
      ({ tm with tasks := dupdate tm.tasks task3.taskId task3 },
        PickAction.shelfDoneForward ws shelfId)
  | none, some _ =>
      let emptyPos : Int :=
        match find_nearest_empty_position hs sm task.workstationId, shelfId with
        | some n, _ => n
        | none, some sid => sid
        | none, none => 0
      let retargeted := modifyIdx (fun st => { st with targetNode := emptyPos })
        task2.currentSubtaskIdx task2.subtasks
      let task3 := { task2 with subtasks := retargeted }
      ({ tm with tasks := dupdate tm.tasks task3.taskId task3 },
        PickAction.shelfDoneReturn emptyPos shelfId)
  | _, none =>
      ({ tm with tasks := dupdate tm.tasks task2.taskId task2 },
        PickAction.errorMsg "No next subtask available")

/-- `TaskManager.handle_item_picked`.  Note the source records the picked
item BEFORE checking that the current sub-task is `WAIT_PICKING`. -/
def handle_item_picked {C : Type} [LinearOrder C] (hs : Int → Int → C)
    (sm : SMState) (tm : TMState) (taskId : String) (item : String) :
    TMState × PickAction :=
  match alookup tm.tasks taskId with
  | none => (tm, PickAction.errorMsg ("Task " ++ taskId ++ " not found"))
  | some task =>
      let task1 := if item ∈ task.itemsPicked then task
        else { task with itemsPicked := task.itemsPicked ++ [item] }
      let tm1 := { tm with tasks := dupdate tm.tasks taskId task1 }
      match get_current_subtask task1 with
      | none => (tm1, PickAction.errorMsg "Not in WAIT_PICKING state")
      | some st =>
          if st.subtaskType ≠ SubTaskType.waitPicking then
            (tm1, PickAction.errorMsg "Not in WAIT_PICKING state")
          else
            if st.itemsToPick.filter (fun i => i ∉ task1.itemsPicked) ≠ [] then
              (tm1, PickAction.continuePicking
                (st.itemsToPick.filter fun i => i ∉ task1.itemsPicked)
                (task1.items.filter fun i => i ∉ task1.itemsPicked))
            else
              decide_shelf_action hs sm tm1 task1 st.shelfId

/-- Stable insertion into a key-sorted list (after existing equal keys), the
building block of the `list.sort(key=...)` model. -/
def insertSortedBy {C : Type} [LinearOrder C] (key : Int → C) (x : Int) :
    List Int → List Int
  | [] => [x]
  | y :: ys => if key x < key y then x :: y :: ys else y :: insertSortedBy key x ys

/-- `list.sort(key=...)`: stable ascending sort by key. -/
def sortByKey {C : Type} [LinearOrder C] (key : Int → C) (l : List Int) : List Int :=
  l.foldl (fun acc x => insertSortedBy key x acc) []

/-- The five sub-tasks `create_task` emits for one shelf (`base` is the
running counter value before this shelf). -/
def subtasksForShelf (taskId : String) (workstationId : Int) (base : Nat)
    (shelfId : Int) (itemsOnShelf : List String) : List SubTask :=
  [ { subtaskId := taskId ++ "_ST" ++ toString (base + 1),
      subtaskType := SubTaskType.goToShelf, shelfId := some shelfId,
      targetNode := shelfId, itemsToPick := [], status := TaskStatus.pending,
      assignedRobot := none },
    { subtaskId := taskId ++ "_ST" ++ toString (base + 2),
      subtaskType := SubTaskType.pickupShelf, shelfId := some shelfId,
      targetNode := shelfId, itemsToPick := [], status := TaskStatus.pending,
      assignedRobot := none },
    { subtaskId := taskId ++ "_ST" ++ toString (base + 3),
      subtaskType := SubTaskType.deliverToWs, shelfId := some shelfId,
      targetNode := workstationId, itemsToPick := [], status := TaskStatus.pending,
      assignedRobot := none },
    { subtaskId := taskId ++ "_ST" ++ toString (base + 4),
      subtaskType := SubTaskType.waitPicking, shelfId := some shelfId,
      targetNode := workstationId, itemsToPick := itemsOnShelf,
      status := TaskStatus.pending, assignedRobot := none },
    { subtaskId := taskId ++ "_ST" ++ toString (base + 5),
      subtaskType := SubTaskType.returnShelf, shelfId := some shelfId,
      targetNode := shelfId, itemsToPick := [], status := TaskStatus.pending,
      assignedRobot := none } ]

/-- The sub-task chain for the ordered shelf visit list. -/
def buildSubtasks (taskId : String) (workstationId : Int)
    (shelfItems : List (Int × List String)) (shelfIds : List Int) : List SubTask :=
  (shelfIds.enum.map fun p =>
    subtasksForShelf taskId workstationId (5 * p.1) p.2
      ((alookup shelfItems p.2).getD [])).flatten

/-- The demand-registration loop at the end of `create_task`. -/
def registerDemands (taskId : String) (workstationId : Int) :
    List (Int × List String) → TMState → TMState
  | [], tm => tm
  | (sid, its) :: rest, tm =>
      let sd := dappend tm.shelfDemand sid ⟨taskId, workstationId, its⟩
      registerDemands taskId workstationId rest { tm with shelfDemand := sd }

/-- `TaskManager.create_task`: fails (returns `none`, registering nothing)
exactly when `find_shelves_for_items` comes back empty; otherwise builds
the sub-task chain, stores the task and registers its shelf demands. -/
def create_task {C : Type} [LinearOrder C] (hs : Int → Int → C) (sm : SMState)
    (tm : TMState) (taskId : String) (workstationId : Int) (items : List String) :
    TMState × Option PickingTask :=
  let shelfItems := find_shelves_for_items sm items
  if shelfItems = [] then (tm, none)
  else
    let shelfIds := sortByKey (fun sid => hs workstationId sid)
      (shelfItems.map Prod.fst)
    let task : PickingTask := {
      taskId := taskId, workstationId := workstationId, items := items,
      shelfSequence := shelfIds,
      subtasks := buildSubtasks taskId workstationId shelfItems shelfIds,
      currentSubtaskIdx := 0, status := TaskStatus.pending,
      itemsPicked := [], assignedRobot := none }
    (registerDemands taskId workstationId shelfItems
        { tm with tasks := dupdate tm.tasks taskId task },
      some task)

/-- `TaskManager.create_batch_tasks`: every request is processed regardless
of earlier failures. -/
def create_batch_tasks {C : Type} [LinearOrder C] (hs : Int → Int → C)
    (sm : SMState) : TMState → List (String × Int × List String) →
    TMState × List PickingTask
  | tm, [] => (tm, [])
  | tm, (tid, ws, items) :: rest =>
      match create_task hs sm tm tid ws items with
      | (tm1, some t) =>
          match create_batch_tasks hs sm tm1 rest with
          | (tm2, ts) => (tm2, t :: ts)
      | (tm1, none) => create_batch_tasks hs sm tm1 rest

/-! ## `RobotManager` (claim C7) -/

/-- `RobotStatus` of `robot_manager.py`. -/
inductive RobotStatus
  | idle
  | busy
  | err
deriving DecidableEq

/-- A `Robot` record (the task queue is irrelevant to the claims). -/
structure Robot where
  rid : Int
  name : String
  homeNode : Int
  currentNode : Int
  status : RobotStatus
deriving DecidableEq

/-- The mutable state of `RobotManager`. -/
structure RMState where
  robots : List (Int × Robot)
deriving DecidableEq

/-- `RobotManager.get_idle_robot` (as defined in `robot_manager.py` under
src): the first robot in registration order whose status is IDLE — it takes
no target and consults no distances. -/
def get_idle_robot (rm : RMState) : Option Robot :=
  (rm.robots.map Prod.snd).find? fun r => decide (r.status = RobotStatus.idle)

/-- The scan step of `get_available_robot`: keep the strictly nearer idle
robot, so the first minimum in registration order wins. -/
def pickIdleNearer {C : Type} [LinearOrder C] (hs : Int → Int → C)
    (targetNode : Int) (best : Option Robot) (r : Robot) : Option Robot :=
  if r.status = RobotStatus.idle then
    match best with
    | none => some r
    | some b =>
        if hs r.currentNode targetNode < hs b.currentNode targetNode then some r
        else some b
  else best

/-- Modelled from the spec: `RobotManager.get_available_robot` is called by
`RequestHandler._try_assign_pending_tasks` but is not defined anywhere under
src (the committed `robot_manager.py` only defines `get_idle_robot`, which
ignores the target).  Spec §4.5: "`available(target_node, planner)`: of all
robots with `status = IDLE`, returns the one minimizing planner heuristic
distance from its `current_node` to `target_node`. Returns none if all are
busy." -/
def get_available_robot {C : Type} [LinearOrder C] (hs : Int → Int → C)
    (rm : RMState) (targetNode : Int) : Option Robot :=
  (rm.robots.map Prod.snd).foldl (pickIdleNearer hs targetNode) none

/-! ## Concrete fixtures used to evaluate the models -/

/-- A task whose current sub-operation is `GO_TO_SHELF` (so not
`WAIT_PICKING`). -/
def subtaskGo : SubTask :=
  { subtaskId := "T1_ST1", subtaskType := SubTaskType.goToShelf,
    shelfId := some 9, targetNode := 9, itemsToPick := [],
    status := TaskStatus.inProgress, assignedRobot := some 1 }

/-- An in-progress task positioned on `subtaskGo`. -/
def taskC3 : PickingTask :=
  { taskId := "T1", workstationId := 50, items := ["A"], shelfSequence := [9],
    subtasks := [subtaskGo], currentSubtaskIdx := 0,
    status := TaskStatus.inProgress, itemsPicked := [], assignedRobot := some 1 }

/-- A task store holding only `taskC3`. -/
def tmC3 : TMState := { tasks := [("T1", taskC3)], shelfDemand := [] }

/-- An empty shelf registry. -/
def smEmpty : SMState := { shelves := [], itemToShelf := [], allShelfNodes := [] }

/-- A shelf registry knowing item `A` on shelf `9` and nothing else. -/
def smC4 : SMState := { shelves := [], itemToShelf := [("A", 9)], allShelfNodes := [9] }

/-- An empty task store. -/
def tm0 : TMState := { tasks := [], shelfDemand := [] }

/-- A map whose single edge references the undeclared nodes `2` and `3`. -/
def dataC5 : MapData Int :=
  { nodes := [{ id := 1, x := 0, y := 0 }],
    edges := [{ src := 2, dst := 3, cost := 1 }] }

/-- A pending task at workstation `60` needing item `b` of shelf `9`. -/
def taskT2 : PickingTask :=
  { taskId := "T2", workstationId := 60, items := ["b"], shelfSequence := [9],
    subtasks := [], currentSubtaskIdx := 0, status := TaskStatus.pending,
    itemsPicked := [], assignedRobot := none }

/-- A pending task at workstation `61` needing item `c` of shelf `9`. -/
def taskT3 : PickingTask :=
  { taskId := "T3", workstationId := 61, items := ["c"], shelfSequence := [9],
    subtasks := [], currentSubtaskIdx := 0, status := TaskStatus.pending,
    itemsPicked := [], assignedRobot := none }

/-- The shelf-9 demand entry of `taskT2`, registered first. -/
def demandT2 : Demand := { taskId := "T2", workstationId := 60, items := ["b"] }

/-- The shelf-9 demand entry of `taskT3`, registered second. -/
def demandT3 : Demand := { taskId := "T3", workstationId := 61, items := ["c"] }

/-- A task store where both `taskT2` and `taskT3` still need shelf `9`. -/
def tmC6 : TMState :=
  { tasks := [("T2", taskT2), ("T3", taskT3)],
    shelfDemand := [(9, [demandT2, demandT3])] }

/-- Coordinates putting workstation `61` far closer to shelf `9` than
workstation `60`. -/
def nodesC6 : List (Int × Int × Int) := [(9, (0, 0)), (60, (10, 0)), (61, (1, 0))]

/-- A shelf already carried by robot `1`. -/
def shelfC8 : Shelf :=
  { shelfId := 9, label := "S1", items := ["A"], homeNode := 9,
    currentNode := 9, status := ShelfStatus.carried, carriedBy := some 1 }

/-- A shelf registry holding only the carried `shelfC8`. -/
def smC8 : SMState :=
  { shelves := [(9, shelfC8)], itemToShelf := [("A", 9)], allShelfNodes := [9] }

/-- An idle robot far from the target used below. -/
def robotFar : Robot :=
  { rid := 1, name := "AGV-1", homeNode := 1, currentNode := 100,
    status := RobotStatus.idle }

/-- An idle robot close to the target used below. -/
def robotNear : Robot :=
  { rid := 2, name := "AGV-2", homeNode := 2, currentNode := 5,
    status := RobotStatus.idle }

/-- A busy robot sitting exactly on the target used below. -/
def robotBusy : Robot :=
  { rid := 3, name := "AGV-3", homeNode := 3, currentNode := 6,
    status := RobotStatus.busy }

/-- A robot registry with `robotFar` registered before `robotNear`. -/
def rmC7 : RMState :=
  { robots := [(1, robotFar), (2, robotNear), (3, robotBusy)] }

/-- A concrete (squared-distance) heuristic on integer node ids. -/
def sqDist : Int → Int → Int := fun a b => (a - b) * (a - b)

/-! ## Dictionary lemmas -/

section DictLemmas

variable {α : Type} {β : Type} [DecidableEq α]

@[simp] theorem alookup_nil (k : α) : alookup ([] : List (α × β)) k = none := rfl

@[simp] theorem alookup_cons (k k' : α) (v : β) (rest : List (α × β)) :
    alookup ((k', v) :: rest) k = if k = k' then some v else alookup rest k := rfl

theorem alookup_dupdate (l : List (α × β)) (k k' : α) (v : β) :
    alookup (dupdate l k v) k' = if k' = k then some v else alookup l k' := by
  induction l with
  | nil => simp [dupdate]
  | cons p rest ih =>
      obtain ⟨k₀, v₀⟩ := p
      by_cases h0 : k₀ = k
      · subst h0
        by_cases h1 : k' = k₀ <;> simp [dupdate, h1]
      · by_cases h1 : k' = k₀
        · subst h1
          simp [dupdate, h0]
        · simp [dupdate, h0, h1, ih]

theorem alookup_dupdate_self (l : List (α × β)) (k : α) (v : β) :
    alookup (dupdate l k v) k = some v := by
  simp [alookup_dupdate]

/-- Keys present before a dictionary write are still present afterwards. -/
theorem isSome_alookup_dupdate (l : List (α × β)) (k k' : α) (v : β)
    (h : (alookup l k').isSome) : (alookup (dupdate l k v) k').isSome := by
  rw [alookup_dupdate]
  by_cases hk : k' = k <;> simp [hk, h]

end DictLemmas

/-- Every element of `compressGo (some a) l` starts with a node distinct from
`a`, and the result never has two equal consecutive nodes. -/
theorem compressGo_chain :
    ∀ (l : List STState) (last : Option Int),
      List.Chain' (fun a b => a ≠ b) (compressGo last l) ∧
      (∀ a, last = some a → ∀ x ∈ (compressGo last l).head?, x ≠ a) := by
  intro l
  induction l with
  | nil => intro last; constructor <;> simp [compressGo]
  | cons p rest ih =>
      intro last
      obtain ⟨node, t⟩ := p
      match last with
      | none =>
          refine ⟨?_, by simp⟩
          have h1 := (ih (some node)).1
          have h2 := (ih (some node)).2 node rfl
          simp only [compressGo]
          exact List.chain'_cons'.2 ⟨fun y hy => (h2 y hy).symm, h1⟩
      | some a =>
          by_cases h : node ≠ a
          · have h1 := (ih (some node)).1
            have h2 := (ih (some node)).2 node rfl
            constructor
            · simp only [compressGo, if_pos h]
              exact List.chain'_cons'.2 ⟨fun y hy => (h2 y hy).symm, h1⟩
            · intro b hb x hx
              simp only [compressGo, if_pos h] at hx
              simp only [Option.some.injEq] at hb
              subst hb
              simp only [List.head?_cons, Option.mem_def, Option.some.injEq] at hx
              subst hx; exact h
          · push_neg at h
            subst h
            have h1 := (ih (some node)).1
            have h2 := (ih (some node)).2 node rfl
            have hgo : compressGo (some node) ((node, t) :: rest)
                = compressGo (some node) rest := by
              simp [compressGo]
            constructor
            · rw [hgo]; exact h1
            · intro b hb x hx
              rw [hgo] at hx
              simp only [Option.some.injEq] at hb
              exact hb ▸ h2 x hx

/-- Compressing a timed path whose node projection already has no consecutive
duplicates just returns the projection. -/
theorem compressGo_of_chain :
    ∀ (l : List STState),
      List.Chain' (fun a b => a ≠ b) (l.map Prod.fst) →
      (compressGo none l = l.map Prod.fst ∧
       ∀ a, (∀ x ∈ (l.map Prod.fst).head?, x ≠ a) →
         compressGo (some a) l = l.map Prod.fst) := by
  intro l
  induction l with
  | nil => intro _; refine ⟨rfl, fun a _ => rfl⟩
  | cons p rest ih =>
      intro hchain
      obtain ⟨node, t⟩ := p
      simp only [List.map_cons] at hchain
      have hrest : List.Chain' (fun a b => a ≠ b) (rest.map Prod.fst) :=
        hchain.tail
      have hhead : ∀ x ∈ (rest.map Prod.fst).head?, x ≠ node := by
        intro x hx
        exact (List.chain'_cons'.1 hchain).1 x hx |>.symm
      refine ⟨?_, ?_⟩
      · simp only [compressGo, List.map_cons, List.cons.injEq, true_and]
        exact (ih hrest).2 node hhead
      · intro a ha
        have hne : node ≠ a := by
          apply ha; simp
        simp only [compressGo, if_pos hne, List.map_cons, List.cons.injEq, true_and]
        exact (ih hrest).2 node hhead

/-- **C9.** Node-path compression is idempotent: the output of
`compress_to_node_path` never contains two equal consecutive nodes, and
compressing any timed path whose node sequence is the compressed output
(whatever the attached times) returns that node sequence unchanged. -/
theorem compress_to_node_path_idempotent (tp : List STState) :
    List.Chain' (fun a b => a ≠ b) (compress_to_node_path tp) ∧
    (∀ ts : List STState, ts.map Prod.fst = compress_to_node_path tp →
      compress_to_node_path ts = compress_to_node_path tp) := by
  refine ⟨(compressGo_chain tp none).1, ?_⟩
  intro ts hts
  have hchain : List.Chain' (fun a b => a ≠ b) (ts.map Prod.fst) := by
    rw [hts]; exact (compressGo_chain tp none).1
  unfold compress_to_node_path
  rw [(compressGo_of_chain ts hchain).1, hts]
  rfl

/-- Concrete check of C9: the compression of a path with waits has no
consecutive duplicates and re-compressing it is the identity. -/
theorem compress_to_node_path_idempotent_witness :
    compress_to_node_path [((1 : Int), 0), (1, 1), (2, 2), (2, 3), (3, 4)] = [1, 2, 3] ∧
    compress_to_node_path [((1 : Int), 0), (2, 1), (3, 2)] = [1, 2, 3] := by
  have h := (compress_to_node_path_idempotent
      [((1 : Int), 0), (1, 1), (2, 2), (2, 3), (3, 4)]).2
      [((1 : Int), 0), (2, 1), (3, 2)] (by decide)
  exact ⟨by decide, by rw [h]; decide⟩

/-! ## Planner invariant proofs -/

section PlannerProofs

variable {C : Type} [LinearOrder C] [Add C] [Zero C] [One C]

theorem foldlMin_mem (es : List (HeapEntry C)) (m : HeapEntry C) :
    es.foldl (fun m x => if entryLt x m then x else m) m ∈ m :: es := by
  induction es generalizing m with
  | nil => simp
  | cons e es ih =>
      simp only [List.foldl_cons]
      by_cases h : entryLt e m
      · simp only [h, if_true]
        have := ih e
        simp only [List.mem_cons] at this ⊢
        tauto
      · simp only [h, Bool.false_eq_true, if_false]
        have := ih m
        simp only [List.mem_cons] at this ⊢
        tauto

theorem popMin_sound (l : List (HeapEntry C)) (e : HeapEntry C)
    (rest : List (HeapEntry C)) (h : popMin l = some (e, rest)) :
    e ∈ l ∧ ∀ x ∈ rest, x ∈ l := by
  unfold popMin at h
  cases l with
  | nil => simp [findMin] at h
  | cons a as =>
      simp only [findMin, Option.some.injEq, Prod.mk.injEq] at h
      obtain ⟨he, hr⟩ := h
      subst he; subst hr
      exact ⟨foldlMin_mem as a, fun x hx => List.erase_subset _ _ hx⟩

theorem reconstruct_spec (graph : Int → List (Int × C)) (start : Int)
    (resN : List STState) (resE : List (Int × Int × Nat))
    (cf : List (STState × STState))
    (hcf : cfInv graph start resN resE cf) :
    ∀ (fuel : Nat) (cur : STState),
      (cur = ((start : Int), (0 : Nat)) ∨ (alookup cf cur).isSome) →
      cur.2 < fuel →
      astarOut graph start resN resE (reconstruct cf fuel cur) ∧
        (reconstruct cf fuel cur).getLast? = some cur := by
  intro fuel
  induction fuel with
  | zero => intro cur _ hlt; omega
  | succ n ih =>
      intro cur hcur hlt
      cases hcl : alookup cf cur with
      | none =>
          have hstart : cur = ((start : Int), (0 : Nat)) := by
            rcases hcur with h | h
            · exact h
            · rw [hcl] at h; simp at h
          simp only [reconstruct, hcl]
          exact ⟨⟨by rw [hstart]; rfl, List.chain'_singleton _⟩, rfl⟩
      | some prev =>
          obtain ⟨hlink, hprev⟩ := hcf cur prev hcl
          have htime : cur.2 = prev.2 + 1 := hlink.1
          have hprevlt : prev.2 < n := by omega
          obtain ⟨⟨hhead, hchain⟩, hlast⟩ := ih prev hprev hprevlt
          simp only [reconstruct, hcl]
          refine ⟨⟨?_, ?_⟩, List.getLast?_concat _⟩
          · obtain ⟨a, q', hq⟩ : ∃ a q', reconstruct cf n prev = a :: q' := by
              cases hq : reconstruct cf n prev with
              | nil => rw [hq] at hhead; simp at hhead
              | cons a q' => exact ⟨a, q', rfl⟩
            rw [hq] at hhead ⊢
            simpa using hhead
          · refine List.chain'_append.2 ⟨hchain, List.chain'_singleton _, ?_⟩
            intro x hx y hy
            rw [hlast] at hx
            simp only [Option.mem_def, Option.some.injEq] at hx
            simp only [List.head?_cons, Option.mem_def, Option.some.injEq] at hy
            subst hx; subst hy
            exact hlink

theorem expand_inv (graph : Int → List (Int × C)) (start : Int)
    (resN : List STState) (resE : List (Int × Int × Nat))
    (hfun : Int → C) (cur : Int) (t : Nat) (g : C) :
    ∀ (ns : List (Int × C)) (st : AState C),
      cfInv graph start resN resE st.cameFrom →
      heapInv start st.cameFrom st.openHeap →
      (((cur, t) : STState) = ((start : Int), (0 : Nat)) ∨
        (alookup st.cameFrom ((cur, t) : STState)).isSome) →
      (∀ x ∈ ns, x.1 = cur ∨ x.1 ∈ (graph cur).map Prod.fst) →
      cfInv graph start resN resE (expand resN resE hfun cur t g ns st).cameFrom ∧
        heapInv start (expand resN resE hfun cur t g ns st).cameFrom
          (expand resN resE hfun cur t g ns st).openHeap := by
  intro ns
  induction ns with
  | nil => intro st h1 h2 _ _; exact ⟨h1, h2⟩
  | cons nc rest ih =>
      intro st hcf hheap hcurkey hns
      obtain ⟨nxt, cost⟩ := nc
      have hrest : ∀ x ∈ rest, x.1 = cur ∨ x.1 ∈ (graph cur).map Prod.fst :=
        fun x hx => hns x (List.mem_cons_of_mem _ hx)
      simp only [expand]
      by_cases h1 : ((nxt, t + 1) : STState) ∈ resN
      · simp only [if_pos h1]
        exact ih st hcf hheap hcurkey hrest
      · simp only [if_neg h1]
        by_cases h2 : nxt ≠ cur ∧ ((nxt, cur, t) : Int × Int × Nat) ∈ resE
        · simp only [if_pos h2]
          exact ih st hcf hheap hcurkey hrest
        · simp only [if_neg h2]
          by_cases h3 : gImproved st.gScore ((nxt, t + 1) : STState) (g + cost)
          · simp only [h3, if_true]
            apply ih
            · -- cfInv is preserved by the new parent-map entry
              intro k v hkv
              rw [alookup_dupdate] at hkv
              by_cases hk : k = ((nxt, t + 1) : STState)
              · rw [if_pos hk] at hkv
                obtain rfl : v = ((cur, t) : STState) := by
                  simpa using hkv.symm
                subst hk
                refine ⟨⟨rfl, ?_, h1, ?_⟩, ?_⟩
                · exact hns (nxt, cost) (List.mem_cons_self _ _)
                · intro hne
                  intro hmem
                  exact h2 ⟨hne, hmem⟩
                · rcases hcurkey with h | h
                  · exact Or.inl h
                  · exact Or.inr (isSome_alookup_dupdate _ _ _ _ h)
              · rw [if_neg hk] at hkv
                obtain ⟨hlink, hv⟩ := hcf k v hkv
                refine ⟨hlink, ?_⟩
                rcases hv with h | h
                · exact Or.inl h
                · exact Or.inr (isSome_alookup_dupdate _ _ _ _ h)
            · -- heapInv: the pushed state is now a key; old entries persist
              intro e he
              simp only [List.mem_cons] at he
              rcases he with rfl | he
              · right
                show (alookup (dupdate st.cameFrom _ _) ((nxt, t + 1) : STState)).isSome
                rw [alookup_dupdate_self]; rfl
              · rcases hheap e he with h | h
                · exact Or.inl h
                · exact Or.inr (isSome_alookup_dupdate _ _ _ _ h)
            · rcases hcurkey with h | h
              · exact Or.inl h
              · exact Or.inr (isSome_alookup_dupdate _ _ _ _ h)
            · exact hrest
          · simp only [h3, Bool.false_eq_true, if_false]
            exact ih st hcf hheap hcurkey hrest

theorem astarLoop_spec (graph : Int → List (Int × C)) (h : Int → Int → C)
    (goal start : Int) (resN : List STState) (resE : List (Int × Int × Nat))
    (maxTime : Nat) :
    ∀ (fuel : Nat) (st : AState C) (p : List STState),
      cfInv graph start resN resE st.cameFrom →
      heapInv start st.cameFrom st.openHeap →
      astarLoop graph h goal resN resE maxTime fuel st = some p →
      astarOut graph start resN resE p := by
  intro fuel
  induction fuel with
  | zero => intro st p _ _ hrun; simp [astarLoop] at hrun
  | succ n ih =>
      intro st p hcf hheap hrun
      rw [astarLoop] at hrun
      cases hpop : popMin st.openHeap with
      | none => rw [hpop] at hrun; simp at hrun
      | some er =>
          obtain ⟨⟨f, g, cur, t⟩, rest⟩ := er
          rw [hpop] at hrun
          simp only [] at hrun
          obtain ⟨hmem, hsub⟩ := popMin_sound _ _ _ hpop
          have hcurkey : ((cur, t) : STState) = ((start : Int), (0 : Nat)) ∨
              (alookup st.cameFrom ((cur, t) : STState)).isSome :=
            hheap _ hmem
          have hheaprest : heapInv start st.cameFrom rest :=
            fun e he => hheap e (hsub e he)
          by_cases hgoal : cur = goal
          · rw [if_pos hgoal] at hrun
            simp only [Option.some.injEq] at hrun
            subst hrun
            exact (reconstruct_spec graph start resN resE st.cameFrom hcf
              (t + 1) (cur, t) hcurkey (Nat.lt_succ_self t)).1
          · rw [if_neg hgoal] at hrun
            by_cases htime : maxTime ≤ t
            · rw [if_pos htime] at hrun
              exact ih { st with openHeap := rest } p hcf hheaprest hrun
            · rw [if_neg htime] at hrun
              have hns : ∀ x ∈ ((cur, (1 : C)) :: graph cur),
                  x.1 = cur ∨ x.1 ∈ (graph cur).map Prod.fst := by
                intro x hx
                simp only [List.mem_cons] at hx
                rcases hx with rfl | hx
                · exact Or.inl rfl
                · exact Or.inr (List.mem_map_of_mem Prod.fst hx)
              have hinv := expand_inv graph start resN resE (fun n => h n goal)
                cur t g ((cur, 1) :: graph cur) { st with openHeap := rest }
                hcf hheaprest hcurkey hns
              exact ih _ p hinv.1 hinv.2 hrun

/-- Every successful `astar_with_time` call returns a path that starts at
`(start, 0)` and whose every link respects the graph and both reservation
tables. -/
theorem astar_spec (graph : Int → List (Int × C)) (h : Int → Int → C)
    (start goal : Int) (resN : List STState) (resE : List (Int × Int × Nat))
    (maxTime fuel : Nat) (p : List STState)
    (hrun : astar_with_time graph h start goal resN resE maxTime fuel = some p) :
    astarOut graph start resN resE p := by
  apply astarLoop_spec graph h goal start resN resE maxTime fuel _ p _ _ hrun
  · intro k v hkv; simp [alookup] at hkv
  · intro e he
    simp only [List.mem_singleton] at he
    subst he
    exact Or.inl rfl

/-- A path with the `astarOut` shape is the start state followed by a tail. -/
theorem astarOut_cons (graph : Int → List (Int × C)) (start : Int)
    (resN : List STState) (resE : List (Int × Int × Nat)) (p : List STState)
    (h : astarOut graph start resN resE p) :
    ∃ tail, p = ((start : Int), (0 : Nat)) :: tail := by
  obtain ⟨hhead, _⟩ := h
  cases p with
  | nil => simp at hhead
  | cons a tail =>
      simp only [List.head?_cons, Option.some.injEq] at hhead
      exact ⟨tail, by rw [hhead]⟩

/-- Along a `linkOk` chain the time strictly increases after the head. -/
theorem chain_time_pos (graph : Int → List (Int × C)) (resN : List STState)
    (resE : List (Int × Int × Nat)) :
    ∀ (l : List STState), List.Chain' (linkOk graph resN resE) l →
      ∀ a, l.head? = some a → ∀ x ∈ l.tail, a.2 < x.2 := by
  intro l
  induction l with
  | nil => intro _ a ha; simp at ha
  | cons b t ih =>
      intro hchain a ha x hx
      simp only [List.head?_cons, Option.some.injEq] at ha
      subst ha
      cases t with
      | nil => simp at hx
      | cons c t' =>
          obtain ⟨hbc, hrest⟩ := List.chain'_cons.1 hchain
          have hbc2 : c.2 = b.2 + 1 := hbc.1
          simp only [List.tail_cons, List.mem_cons] at hx
          rcases hx with rfl | hx
          · omega
          · have := ih hrest c (by simp) x hx
            omega

/-- Every element after the head of a chain is the target of some link. -/
theorem chain_tail_link {R : STState → STState → Prop} :
    ∀ (l : List STState), List.Chain' R l → ∀ x ∈ l.tail, ∃ a, R a x := by
  intro l
  induction l with
  | nil => intro _ x hx; simp at hx
  | cons b t ih =>
      intro hchain x hx
      cases t with
      | nil => simp at hx
      | cons c t' =>
          obtain ⟨hbc, hrest⟩ := List.chain'_cons.1 hchain
          simp only [List.tail_cons, List.mem_cons] at hx
          rcases hx with rfl | hx
          · exact ⟨b, hbc⟩
          · exact ih hrest x hx

/-- Every recorded move of a chained path is witnessed by a chain link. -/
theorem movesOf_spec {R : STState → STState → Prop} :
    ∀ (l : List STState), List.Chain' R l →
      ∀ u v t, ((u, v, t) : Int × Int × Nat) ∈ movesOf l →
        v ≠ u ∧ ∃ t', R ((u, t) : STState) ((v, t') : STState) := by
  intro l
  induction l with
  | nil => intro _ u v t hm; simp [movesOf] at hm
  | cons a rest ih =>
      intro hchain u v t hm
      cases rest with
      | nil =>
          obtain ⟨a1, a2⟩ := a
          simp [movesOf] at hm
      | cons b rest' =>
          obtain ⟨a1, a2⟩ := a
          obtain ⟨b1, b2⟩ := b
          obtain ⟨hab, hrest⟩ := List.chain'_cons.1 hchain
          simp only [movesOf, List.mem_append] at hm
          rcases hm with hm | hm
          · by_cases hne : b1 ≠ a1
            · simp only [if_pos hne, List.mem_singleton, Prod.mk.injEq] at hm
              obtain ⟨rfl, rfl, rfl⟩ := hm
              exact ⟨hne, b2, hab⟩
            · simp [if_neg hne] at hm
          · exact ih hrest u v t hm

/-- Decomposition of a successful `prioritizedLoop` run: each returned path
is produced by a single-robot call whose reservation tables extend the
initial ones, for some start/goal pair of the batch. -/
theorem prioritizedLoop_paths (graph : Int → List (Int × C)) (h : Int → Int → C)
    (maxTime stay fuel : Nat) :
    ∀ (pairs : List (Int × Int)) (resN : List STState)
      (resE : List (Int × Int × Nat)) (ps : List (List STState)),
      prioritizedLoop graph h maxTime stay fuel pairs resN resE = some ps →
      ∀ p ∈ ps, ∃ s g resN' resE', (s, g) ∈ pairs ∧ resN ⊆ resN' ∧ resE ⊆ resE' ∧
        astar_with_time graph h s g resN' resE' maxTime fuel = some p := by
  intro pairs
  induction pairs with
  | nil =>
      intro resN resE ps hrun p hp
      simp only [prioritizedLoop, Option.some.injEq] at hrun
      subst hrun; simp at hp
  | cons sg rest ih =>
      intro resN resE ps hrun p hp
      obtain ⟨s, g⟩ := sg
      simp only [prioritizedLoop] at hrun
      cases hast : astar_with_time graph h s g resN resE maxTime fuel with
      | none => rw [hast] at hrun; simp at hrun
      | some p0 =>
          rw [hast] at hrun
          simp only [] at hrun
          cases hrec : prioritizedLoop graph h maxTime stay fuel rest
              (resN ++ p0 ++ stayReservations p0 stay) (resE ++ movesOf p0) with
          | none => rw [hrec] at hrun; simp at hrun
          | some ps' =>
              rw [hrec] at hrun
              simp only [Option.some.injEq] at hrun
              subst hrun
              simp only [List.mem_cons] at hp
              rcases hp with rfl | hp
              · exact ⟨s, g, resN, resE, List.mem_cons_self _ _,
                  fun x hx => hx, fun x hx => hx, hast⟩
              · obtain ⟨s', g', resN', resE', hmem, hsubN, hsubE, hrun'⟩ :=
                  ih _ _ _ hrec p hp
                refine ⟨s', g', resN', resE', List.mem_cons_of_mem _ hmem, ?_, ?_, hrun'⟩
                · intro x hx
                  exact hsubN (by simp [hx])
                · intro x hx
                  exact hsubE (by simp [hx])

/-- The pairwise conflict-freedom relation of claim C1: two timed paths
never share a space-time state, and never traverse the same edge in
opposite directions during the same unit interval. -/
def conflictFree (p q : List STState) : Prop :=
  (∀ s ∈ p, s ∉ q) ∧
    ∀ u v t, ((u, v, t) : Int × Int × Nat) ∈ movesOf p →
      ((v, u, t) : Int × Int × Nat) ∉ movesOf q

/-- Core of claim C1, by induction along the priority order: provided the
start nodes of the batch are pairwise distinct, every pair of returned
paths is conflict-free. -/
theorem prioritizedLoop_pairwise (graph : Int → List (Int × C)) (h : Int → Int → C)
    (maxTime stay fuel : Nat) :
    ∀ (pairs : List (Int × Int)) (resN : List STState)
      (resE : List (Int × Int × Nat)) (ps : List (List STState)),
      (pairs.map Prod.fst).Nodup →
      prioritizedLoop graph h maxTime stay fuel pairs resN resE = some ps →
      List.Pairwise conflictFree ps := by
  intro pairs
  induction pairs with
  | nil =>
      intro resN resE ps _ hrun
      simp only [prioritizedLoop, Option.some.injEq] at hrun
      subst hrun; exact List.Pairwise.nil
  | cons sg rest ih =>
      intro resN resE ps hnodup hrun
      obtain ⟨s, g⟩ := sg
      simp only [List.map_cons, List.nodup_cons] at hnodup
      obtain ⟨hsnotin, hnodup'⟩ := hnodup
      simp only [prioritizedLoop] at hrun
      cases hast : astar_with_time graph h s g resN resE maxTime fuel with
      | none => rw [hast] at hrun; simp at hrun
      | some p0 =>
          rw [hast] at hrun
          simp only [] at hrun
          cases hrec : prioritizedLoop graph h maxTime stay fuel rest
              (resN ++ p0 ++ stayReservations p0 stay) (resE ++ movesOf p0) with
          | none => rw [hrec] at hrun; simp at hrun
          | some ps' =>
              rw [hrec] at hrun
              simp only [Option.some.injEq] at hrun
              subst hrun
              refine List.pairwise_cons.2 ⟨?_, ih _ _ _ hnodup' hrec⟩
              intro q hq
              obtain ⟨s', g', resN', resE', hmem, hsubN, hsubE, hrunq⟩ :=
                prioritizedLoop_paths graph h maxTime stay fuel rest _ _ _ hrec q hq
              have houtp := astar_spec graph h s g resN resE maxTime fuel p0 hast
              have houtq := astar_spec graph h s' g' resN' resE' maxTime fuel q hrunq
              obtain ⟨ptail, hp0⟩ := astarOut_cons graph s resN resE p0 houtp
              obtain ⟨qtail, hq0⟩ := astarOut_cons graph s' resN' resE' q houtq
              have hpsubN : ∀ x ∈ p0, x ∈ resN' := by
                intro x hx
                exact hsubN (by simp [hx])
              constructor
              · -- no shared (node, t)
                intro x hxp hxq
                have hxq' : x = ((s' : Int), (0 : Nat)) ∨ x ∈ q.tail := by
                  rw [hq0] at hxq
                  rcases List.mem_cons.1 hxq with hx | hx
                  · exact Or.inl hx
                  · exact Or.inr (by rw [hq0]; exact hx)
                rcases hxq' with hxeq | hxq'
                · -- x is robot q's start state: then it is robot p's time-0
                  -- state, i.e. the two starts coincide
                  have hx0 : x ∉ p0.tail := by
                    intro hxt
                    have hlt := chain_time_pos graph resN resE p0 houtp.2
                      ((s : Int), (0 : Nat)) (by rw [hp0]; rfl) x hxt
                    rw [hxeq] at hlt
                    simp at hlt
                  have hxhead : x = ((s : Int), (0 : Nat)) := by
                    rw [hp0] at hxp
                    rcases List.mem_cons.1 hxp with hx | hx
                    · exact hx
                    · exact absurd (by rw [hp0]; exact hx) hx0
                  have hss : s = s' := by
                    have h12 := hxhead.symm.trans hxeq
                    simp only [Prod.mk.injEq] at h12
                    exact h12.1
                  exact hsnotin (by rw [hss]; exact List.mem_map_of_mem Prod.fst hmem)
                · obtain ⟨a, hlink⟩ := chain_tail_link q houtq.2 x hxq'
                  exact hlink.2.2.1 (hpsubN x hxp)
              · -- no swap conflict
                intro u v t hmp hmq
                obtain ⟨hne, t', hlink⟩ := movesOf_spec q houtq.2 v u t hmq
                have : ((u, v, t) : Int × Int × Nat) ∈ resE' :=
                  hsubE (by simp [hmp])
                exact hlink.2.2.2 hne this

/-- A path of the `astarOut` shape satisfies the C2 conclusion. -/
theorem astarOut_timedPathOk (graph : Int → List (Int × C)) (start : Int)
    (resN : List STState) (resE : List (Int × Int × Nat)) (p : List STState)
    (h : astarOut graph start resN resE p) : timedPathOk graph p := by
  obtain ⟨hhead, hchain⟩ := h
  constructor
  · intro s hs
    rw [hhead] at hs
    simp only [Option.mem_def, Option.some.injEq] at hs
    rw [← hs]
  · exact hchain.imp fun a b hab => ⟨hab.1, hab.2.1⟩

end PlannerProofs

section PlannerClaims

variable {C : Type} [LinearOrder C] [Add C] [Zero C] [One C]

/-- **C2.** Every path returned by `astar_with_time` — and hence every path
returned by `plan_single_robot` and every per-robot path returned by
`prioritized_planning` — starts at time `0` and advances one time unit per
step, each step either waiting (`v = u`) or following an out-edge of the
loaded graph. -/
theorem planner_paths_unit_step_walks (graph : Int → List (Int × C))
    (h : Int → Int → C) :
    (∀ start goal resN resE maxTime fuel p,
      astar_with_time graph h start goal resN resE maxTime fuel = some p →
      timedPathOk graph p) ∧
    (∀ start goal maxTime fuel p,
      plan_single_robot graph h start goal maxTime fuel = some p →
      timedPathOk graph p) ∧
    (∀ starts goals maxTime stay fuel ps,
      prioritizedPlanning graph h starts goals maxTime stay fuel = some ps →
      ∀ p ∈ ps, timedPathOk graph p) := by
  have key : ∀ start goal resN resE maxTime fuel p,
      astar_with_time graph h start goal resN resE maxTime fuel = some p →
      timedPathOk graph p := by
    intro start goal resN resE maxTime fuel p hrun
    exact astarOut_timedPathOk graph start resN resE p
      (astar_spec graph h start goal resN resE maxTime fuel p hrun)
  refine ⟨key, ?_, ?_⟩
  · intro start goal maxTime fuel p hrun
    exact key start goal [] [] maxTime fuel p hrun
  · intro starts goals maxTime stay fuel ps hrun p hp
    obtain ⟨s, g, resN', resE', _, _, _, hrun'⟩ :=
      prioritizedLoop_paths graph h maxTime stay fuel (starts.zip goals)
        [] [] ps hrun p hp
    exact key s g resN' resE' maxTime fuel p hrun'

/-- Concrete check of C2: a planned path on `testGraph` from `0` to `2` is a
unit-step graph walk starting at time `0`. -/
theorem planner_paths_unit_step_walks_witness :
    timedPathOk testGraph [((0 : Int), (0 : Nat)), (1, 1), (2, 2)] :=
  (planner_paths_unit_step_walks testGraph testH).1 0 2 [] [] 50 100
    [((0 : Int), (0 : Nat)), (1, 1), (2, 2)] (by decide)

/-- **C10.** Calling `astar_with_time` with `start = goal = n` returns the
single-state path `[(n, 0)]` at the very first pop, before any reservation
check: the result is the same for every `reserved_nodes`/`reserved_edges`
content, in particular when `(n, 0)` itself is reserved. -/
theorem astar_start_eq_goal_immediate (graph : Int → List (Int × C))
    (h : Int → Int → C) (n : Int) (resN : List STState)
    (resE : List (Int × Int × Nat)) (maxTime fuel : Nat) :
    astar_with_time graph h n n resN resE maxTime (fuel + 1) = some [(n, 0)] := by
  simp [astar_with_time, astarLoop, popMin, findMin, reconstruct]

/-- C1 as literally stated is false on the code: `astar_with_time` never
checks the start state against `reserved_nodes`, so when two robots share a
start node `prioritized_planning` succeeds while both returned paths contain
the shared state `(0, 0)` — a vertex conflict. -/
theorem prioritized_planning_shared_start_conflict :
    prioritizedPlanning testGraph testH [0, 0] [0, 0] 50 3 10 =
      some [[(0, 0)], [(0, 0)]] ∧
    ¬ conflictFree [((0 : Int), (0 : Nat))] [((0 : Int), (0 : Nat))] := by
  constructor
  · decide
  · intro hcf
    exact hcf.1 (0, 0) (by simp) (by simp)

/-- **C1 (amended).** If `prioritized_planning` succeeds and the start nodes
are pairwise distinct, then the returned space-time paths are pairwise
conflict-free: for every two robots `i < j`, their paths never share a
`(node, t)` pair and never traverse an edge in opposite directions during
the same unit interval.  (The distinctness hypothesis is forced by the
counterexample: the planner never checks a robot's own start state `(s, 0)`
against the reservation table, which is the only conflict it can miss.) -/
theorem prioritized_planning_conflict_free (graph : Int → List (Int × C))
    (h : Int → Int → C) (starts goals : List Int) (maxTime stay fuel : Nat)
    (paths : List (List STState))
    (hlen : starts.length = goals.length)
    (hnodup : starts.Nodup)
    (hrun : prioritizedPlanning graph h starts goals maxTime stay fuel = some paths) :
    List.Pairwise conflictFree paths := by
  apply prioritizedLoop_pairwise graph h maxTime stay fuel (starts.zip goals)
    [] [] paths _ hrun
  rw [List.map_fst_zip starts goals (le_of_eq hlen)]
  exact hnodup

/-- Concrete check of C1 (amended): two robots with distinct starts plan
conflict-free paths. -/
theorem prioritized_planning_conflict_free_witness :
    List.Pairwise conflictFree [[((0 : Int), (0 : Nat))], [((1 : Int), (0 : Nat))]] :=
  prioritized_planning_conflict_free testGraph testH [0, 1] [0, 1] 50 3 10
    [[(0, 0)], [(1, 0)]] rfl (by decide) (by decide)

end PlannerClaims

/-! ## Map loading (claim C5) -/

theorem alookup_dappend {α β : Type} [DecidableEq α]
    (l : List (α × List β)) (k k' : α) (v : β) :
    alookup (dappend l k v) k' =
      if k' = k then some ((alookup l k).getD [] ++ [v]) else alookup l k' := by
  induction l with
  | nil => by_cases h : k' = k <;> simp [dappend, h]
  | cons p rest ih =>
      obtain ⟨k0, vs⟩ := p
      by_cases h0 : k0 = k
      · subst h0
        by_cases h1 : k' = k0 <;> simp [dappend, h1]
      · have h2 : ¬ k = k0 := fun hh => h0 (Eq.symm hh)
        by_cases h1 : k' = k0
        · subst h1
          simp [dappend, h0, h2]
        · simp [dappend, h0, h1, h2, ih]

theorem mem_dappend_preserve {α β : Type} [DecidableEq α]
    (l : List (α × List β)) (k a : α) (v x : β)
    (h : x ∈ (alookup l a).getD []) : x ∈ (alookup (dappend l k v) a).getD [] := by
  rw [alookup_dappend]
  by_cases hk : a = k
  · subst hk
    simp only [if_pos rfl, Option.getD_some]
    exact List.mem_append_left _ h
  · simpa [hk] using h

theorem mem_dappend_self {α β : Type} [DecidableEq α]
    (l : List (α × List β)) (k : α) (v : β) :
    v ∈ (alookup (dappend l k v) k).getD [] := by
  rw [alookup_dappend]
  simp

theorem loadGraph_preserve {C : Type} :
    ∀ (edges : List (MapEdge C)) (g : List (Int × List (Int × C)))
      (a : Int) (x : Int × C),
      x ∈ (alookup g a).getD [] →
      x ∈ (alookup (edges.foldl (fun g e => dappend g e.src (e.dst, e.cost)) g)
        a).getD [] := by
  intro edges
  induction edges with
  | nil => intro g a x hx; simpa using hx
  | cons e rest ih =>
      intro g a x hx
      simp only [List.foldl_cons]
      exact ih _ a x (mem_dappend_preserve _ _ _ _ _ hx)

theorem loadGraph_mem {C : Type} :
    ∀ (edges : List (MapEdge C)) (g : List (Int × List (Int × C)))
      (e : MapEdge C), e ∈ edges →
      (e.dst, e.cost) ∈
        (alookup (edges.foldl (fun g e => dappend g e.src (e.dst, e.cost)) g)
          e.src).getD [] := by
  intro edges
  induction edges with
  | nil => intro g e he; simp at he
  | cons e0 rest ih =>
      intro g e he
      simp only [List.foldl_cons]
      rcases List.mem_cons.1 he with rfl | he
      · exact loadGraph_preserve rest _ _ _ (mem_dappend_self _ _ _)
      · exact ih _ e he

/-- C5 as stated is false: `_load_map` performs no endpoint validation, so
a map whose only edge references the undeclared nodes `2` and `3` loads
successfully, `setdefault` silently creating adjacency key `2`, and the
loaded graph contains an edge both of whose endpoints are outside the node
set. -/
theorem loadMap_unknown_endpoint_counterexample :
    alookup (loadMap dataC5).graph 2 = some [(3, 1)] ∧
    alookup (loadMap dataC5).nodes 2 = none ∧
    alookup (loadMap dataC5).nodes 3 = none ∧
    alookup (loadMap dataC5).nodes 1 = some (0, 0) := by decide

/-- **C5 (amended).** Loading never fails on (and never drops) an edge with
undeclared endpoints: for every map source, every listed edge — whatever
its `from`/`to` ids — ends up recorded under its `from` node in the loaded
adjacency, an unknown `from` id silently gaining a fresh adjacency entry. -/
theorem loadMap_never_rejects_edges {C : Type} (data : MapData C)
    (e : MapEdge C) (he : e ∈ data.edges) :
    (e.dst, e.cost) ∈ (alookup (loadMap data).graph e.src).getD [] :=
  loadGraph_mem data.edges _ e he

/-- Concrete check of C5 (amended): the out-of-node-set edge of `dataC5` is
present in the loaded adjacency. -/
theorem loadMap_never_rejects_edges_witness :
    ((3 : Int), (1 : Int)) ∈ (alookup (loadMap dataC5).graph 2).getD [] :=
  loadMap_never_rejects_edges dataC5 { src := 2, dst := 3, cost := 1 } (by decide)

/-! ## Shelf pickup (claim C8) -/

/-- C8 as stated is false: `mark_shelf_picked_up` never checks the current
status, so picking up the already-carried `shelfC8` (carried by robot `1`)
reports success and silently reassigns the carrier to robot `2`. -/
theorem mark_shelf_picked_up_carried_counterexample :
    shelfC8.status = ShelfStatus.carried ∧
    (mark_shelf_picked_up smC8 9 2).1 = true ∧
    (alookup (mark_shelf_picked_up smC8 9 2).2.shelves 9).map Shelf.carriedBy =
      some (some 2) := by decide

/-- **C8 (amended).** `mark_shelf_picked_up` fails (without change) exactly
on an unknown shelf id; for every known shelf — whatever its current
status, including already `CARRIED` — it reports success and sets the
status to `CARRIED` and the carrier to the given robot. -/
theorem mark_shelf_picked_up_spec (sm : SMState) (shelfId robotId : Int) :
    (alookup sm.shelves shelfId = none →
      mark_shelf_picked_up sm shelfId robotId = (false, sm)) ∧
    ∀ s, alookup sm.shelves shelfId = some s →
      mark_shelf_picked_up sm shelfId robotId =
        (true, { sm with shelves := dupdate sm.shelves shelfId { s with status := ShelfStatus.carried, carriedBy := some robotId } }) := by
  constructor
  · intro h
    simp [mark_shelf_picked_up, h]
  · intro s h
    simp [mark_shelf_picked_up, h]

/-- Concrete check of C8 (amended): picking up a shelf that is already
carried still succeeds and overwrites the carrier. -/
theorem mark_shelf_picked_up_spec_witness :
    mark_shelf_picked_up smC8 9 2 =
      (true, { smC8 with shelves := dupdate smC8.shelves 9 { shelfC8 with status := ShelfStatus.carried, carriedBy := some 2 } }) :=
  (mark_shelf_picked_up_spec smC8 9 2).2 shelfC8 (by decide)

/-! ## Shelf forwarding choice (claim C6) -/

theorem cseGo_eq_find (tasks : List (String × PickingTask)) (ws : Int) :
    ∀ demands : List Demand,
      cseGo tasks ws demands =
        (demands.find? (candidateDemand tasks ws)).map fun d => d.workstationId := by
  intro demands
  induction demands with
  | nil => simp [cseGo]
  | cons d rest ih =>
      by_cases h1 : d.workstationId ≠ ws
      · cases hl : alookup tasks d.taskId with
        | some ot =>
            by_cases h2 : ot.status = TaskStatus.pending ∨
                ot.status = TaskStatus.inProgress
            · by_cases h3 : d.items.filter (fun i => i ∉ ot.itemsPicked) ≠ []
              · have hc : candidateDemand tasks ws d = true := by
                  simp only [candidateDemand, hl, Bool.and_eq_true, Bool.or_eq_true,
                    decide_eq_true_eq]
                  exact ⟨h1, h2, h3⟩
                rw [List.find?_cons_of_pos _ hc]
                simp only [cseGo, hl, if_pos h1, if_pos h2, if_pos h3,
                  Option.map_some']
              · have hc : candidateDemand tasks ws d = false := by
                  simp only [candidateDemand, hl, Bool.and_eq_false_iff,
                    Bool.or_eq_false_iff, decide_eq_false_iff_not]
                  right; right
                  simpa using h3
                rw [List.find?_cons_of_neg _ (by simp [hc])]
                rw [← ih]
                simp only [cseGo, hl, if_pos h1, if_pos h2, if_neg h3]
            · have hc : candidateDemand tasks ws d = false := by
                simp only [candidateDemand, hl, Bool.and_eq_false_iff,
                  Bool.or_eq_false_iff, decide_eq_false_iff_not]
                right; left
                constructor
                · exact fun hp => h2 (Or.inl hp)
                · exact fun hp => h2 (Or.inr hp)
              rw [List.find?_cons_of_neg _ (by simp [hc])]
              rw [← ih]
              simp only [cseGo, hl, if_pos h1, if_neg h2]
        | none =>
            have hc : candidateDemand tasks ws d = false := by
              simp [candidateDemand, hl]
            rw [List.find?_cons_of_neg _ (by simp [hc])]
            rw [← ih]
            simp only [cseGo, hl, if_pos h1]
      · have hc : candidateDemand tasks ws d = false := by
          simp only [candidateDemand]
          simp only [ne_eq, not_not] at h1
          simp [h1]
        rw [List.find?_cons_of_neg _ (by simp [hc])]
        rw [← ih]
        simp only [cseGo, if_neg h1]

/-- C6 as stated is false: with `taskT2` (workstation 60) registered before
`taskT3` (workstation 61) as demands on shelf 9, both still needing items,
the forwarding check picks workstation 60 — the FIRST registered candidate —
although workstation 61 is strictly closer to the shelf's current node
(squared Euclidean distances 1 vs 100 under `nodesC6`). -/
theorem check_shelf_forward_not_nearest_counterexample :
    check_shelf_needed_elsewhere tmC6 (some 9) 50 = some 60 ∧
    candidateDemand tmC6.tasks 50 demandT3 = true ∧
    demandT3.workstationId = 61 ∧
    heuristicSq nodesC6 9 61 < heuristicSq nodesC6 9 60 := by decide

/-- **C6 (amended).** When the current shelf is done, the forwarding check
selects the workstation of the FIRST demand in the shelf's
demand-registration order that (a) belongs to another workstation, (b) whose
task is still pending or in progress, and (c) which still needs some item of
this shelf — irrespective of any distance. -/
theorem check_shelf_needed_elsewhere_first_match (tm : TMState) (sid ws : Int) :
    check_shelf_needed_elsewhere tm (some sid) ws =
      (((alookup tm.shelfDemand sid).getD []).find?
        (candidateDemand tm.tasks ws)).map (fun d => d.workstationId) :=
  cseGo_eq_find tm.tasks ws _

/-! ## Robot selection (claim C7) -/

theorem pickIdleNearer_foldl_spec {C : Type} [LinearOrder C] (hs : Int → Int → C)
    (target : Int) :
    ∀ (l : List Robot) (acc : Option Robot),
      (∀ b, acc = some b → b.status = RobotStatus.idle) →
      ((l.foldl (pickIdleNearer hs target) acc = none ↔
          acc = none ∧ ∀ r ∈ l, r.status ≠ RobotStatus.idle) ∧
        ∀ r, l.foldl (pickIdleNearer hs target) acc = some r →
          r.status = RobotStatus.idle ∧
          (acc = some r ∨ r ∈ l) ∧
          (∀ b, acc = some b → hs r.currentNode target ≤ hs b.currentNode target) ∧
          ∀ r' ∈ l, r'.status = RobotStatus.idle →
            hs r.currentNode target ≤ hs r'.currentNode target) := by
  intro l
  induction l with
  | nil =>
      intro acc hacc
      constructor
      · simp
      · intro r hr
        simp only [List.foldl_nil] at hr
        exact ⟨hacc r hr, Or.inl hr, fun b hb => by rw [hb] at hr; simp at hr; rw [hr],
          by simp⟩
  | cons x l ih =>
      intro acc hacc
      simp only [List.foldl_cons]
      by_cases hx : x.status = RobotStatus.idle
      · -- x is idle: the accumulator becomes x or stays (the nearer one)
        cases acc with
        | none =>
            have hstep : pickIdleNearer hs target none x = some x := by
              simp [pickIdleNearer, hx]
            rw [hstep]
            have hpre : ∀ b, some x = some b → b.status = RobotStatus.idle := by
              intro b hb
              simp only [Option.some.injEq] at hb
              rw [← hb]; exact hx
            obtain ⟨hnone, hsome⟩ := ih (some x) hpre
            constructor
            · rw [hnone]
              constructor
              · rintro ⟨h, _⟩; exact absurd h (by simp)
              · rintro ⟨_, hall⟩
                exact absurd hx (hall x (List.mem_cons_self _ _))
            · intro r hr
              obtain ⟨hidle, hor, hmin, hminl⟩ := hsome r hr
              refine ⟨hidle, ?_, ?_, ?_⟩
              · rcases hor with h | h
                · simp only [Option.some.injEq] at h
                  exact Or.inr (by rw [← h]; exact List.mem_cons_self _ _)
                · exact Or.inr (List.mem_cons_of_mem _ h)
              · intro b hb
                exact absurd hb (by simp)
              · intro r' hr' hr'i
                rcases List.mem_cons.1 hr' with rfl | hr'
                · exact hmin r' rfl
                · exact hminl r' hr' hr'i
        | some b =>
            have hb : b.status = RobotStatus.idle := hacc b rfl
            by_cases hlt : hs x.currentNode target < hs b.currentNode target
            · have hstep : pickIdleNearer hs target (some b) x = some x := by
                simp [pickIdleNearer, hx, hlt]
              rw [hstep]
              have hpre : ∀ b', some x = some b' → b'.status = RobotStatus.idle := by
                intro b' hb'
                simp only [Option.some.injEq] at hb'
                rw [← hb']; exact hx
              obtain ⟨hnone, hsome⟩ := ih (some x) hpre
              constructor
              · rw [hnone]
                constructor
                · rintro ⟨h, _⟩; exact absurd h (by simp)
                · rintro ⟨h, _⟩; exact absurd h (by simp)
              · intro r hr
                obtain ⟨hidle, hor, hmin, hminl⟩ := hsome r hr
                have hrx : hs r.currentNode target ≤ hs x.currentNode target :=
                  hmin x rfl
                refine ⟨hidle, ?_, ?_, ?_⟩
                · rcases hor with h | h
                  · simp only [Option.some.injEq] at h
                    exact Or.inr (by rw [← h]; exact List.mem_cons_self _ _)
                  · exact Or.inr (List.mem_cons_of_mem _ h)
                · intro b' hb'
                  simp only [Option.some.injEq] at hb'
                  subst hb'
                  exact le_trans hrx (le_of_lt hlt)
                · intro r' hr' hr'i
                  rcases List.mem_cons.1 hr' with rfl | hr'
                  · exact hmin r' rfl
                  · exact hminl r' hr' hr'i
            · have hstep : pickIdleNearer hs target (some b) x = some b := by
                simp [pickIdleNearer, hx, hlt]
              rw [hstep]
              obtain ⟨hnone, hsome⟩ := ih (some b) (fun b' hb' => by
                simp only [Option.some.injEq] at hb'
                rw [← hb']; exact hb)
              constructor
              · rw [hnone]
                constructor
                · rintro ⟨h, _⟩; exact absurd h (by simp)
                · rintro ⟨h, _⟩; exact absurd h (by simp)
              · intro r hr
                obtain ⟨hidle, hor, hmin, hminl⟩ := hsome r hr
                have hrb : hs r.currentNode target ≤ hs b.currentNode target :=
                  hmin b rfl
                refine ⟨hidle, ?_, ?_, ?_⟩
                · rcases hor with h | h
                  · exact Or.inl h
                  · exact Or.inr (List.mem_cons_of_mem _ h)
                · intro b' hb'
                  simp only [Option.some.injEq] at hb'
                  subst hb'
                  exact hrb
                · intro r' hr' hr'i
                  rcases List.mem_cons.1 hr' with rfl | hr'
                  · exact le_trans hrb (not_lt.1 hlt)
                  · exact hminl r' hr' hr'i
      · -- x is not idle: the accumulator is unchanged
        have hstep : pickIdleNearer hs target acc x = acc := by
          simp [pickIdleNearer, hx]
        rw [hstep]
        obtain ⟨hnone, hsome⟩ := ih acc hacc
        constructor
        · rw [hnone]
          constructor
          · rintro ⟨h1, h2⟩
            exact ⟨h1, fun r hr => by
              rcases List.mem_cons.1 hr with rfl | hr
              · exact hx
              · exact h2 r hr⟩
          · rintro ⟨h1, h2⟩
            exact ⟨h1, fun r hr => h2 r (List.mem_cons_of_mem _ hr)⟩
        · intro r hr
          obtain ⟨hidle, hor, hmin, hminl⟩ := hsome r hr
          refine ⟨hidle, ?_, hmin, ?_⟩
          · rcases hor with h | h
            · exact Or.inl h
            · exact Or.inr (List.mem_cons_of_mem _ h)
          · intro r' hr' hr'i
            rcases List.mem_cons.1 hr' with rfl | hr'
            · exact absurd hr'i hx
            · exact hminl r' hr' hr'i

/-- **C7.** (Modelled from the spec, see `get_available_robot`.)  The robot
selection used when pairing tasks to robots returns `none` exactly when no
robot is idle, and otherwise returns an idle robot whose current node
minimises the planner heuristic distance to the target node. -/
theorem get_available_robot_spec {C : Type} [LinearOrder C] (hs : Int → Int → C)
    (rm : RMState) (targetNode : Int) :
    (get_available_robot hs rm targetNode = none ↔
      ∀ r ∈ rm.robots.map Prod.snd, r.status ≠ RobotStatus.idle) ∧
    ∀ r, get_available_robot hs rm targetNode = some r →
      r ∈ rm.robots.map Prod.snd ∧ r.status = RobotStatus.idle ∧
      ∀ r' ∈ rm.robots.map Prod.snd, r'.status = RobotStatus.idle →
        hs r.currentNode targetNode ≤ hs r'.currentNode targetNode := by
  obtain ⟨hnone, hsome⟩ := pickIdleNearer_foldl_spec hs targetNode
    (rm.robots.map Prod.snd) none (by simp)
  constructor
  · rw [show get_available_robot hs rm targetNode =
      (rm.robots.map Prod.snd).foldl (pickIdleNearer hs targetNode) none from rfl]
    rw [hnone]; simp
  · intro r hr
    obtain ⟨hidle, hor, _, hminl⟩ := hsome r hr
    rcases hor with h | h
    · simp at h
    · exact ⟨h, hidle, hminl⟩

/-- Concrete check of C7: with the far idle robot registered first, the
selection still returns the near idle robot, which minimises the distance
among the idle robots. -/
theorem get_available_robot_spec_witness :
    robotNear ∈ rmC7.robots.map Prod.snd ∧
    robotNear.status = RobotStatus.idle ∧
    ∀ r' ∈ rmC7.robots.map Prod.snd, r'.status = RobotStatus.idle →
      sqDist robotNear.currentNode 6 ≤ sqDist r'.currentNode 6 :=
  (get_available_robot_spec sqDist rmC7 6).2 robotNear (by decide)

/-! ## Pick events in the wrong state (claim C3) -/

/-- C3 as stated is false: a `pick_complete` for task `T1` — whose current
sub-operation is `GO_TO_SHELF`, not `WAIT_PICKING` — gets an error response,
but the handler has already recorded the item: `items_picked` grows from
`[]` to `["A"]`. -/
theorem handle_item_picked_mutates_state_counterexample :
    (handle_item_picked testH smEmpty tmC3 "T1" "A").2 =
      PickAction.errorMsg "Not in WAIT_PICKING state" ∧
    (alookup tmC3.tasks "T1").map PickingTask.itemsPicked = some [] ∧
    (alookup (handle_item_picked testH smEmpty tmC3 "T1" "A").1.tasks "T1").map
      PickingTask.itemsPicked = some ["A"] := by decide

/-- **C3 (amended).** If an item-picked event arrives for an existing task
whose current sub-operation is missing or not of kind `WAIT_PICKING`, the
handler returns an error response and leaves the cursor and the sub-task
chain unchanged — but the item is recorded first: `items_picked` gains the
item unless it was already present. -/
theorem handle_item_picked_wrong_state {C : Type} [LinearOrder C]
    (hs : Int → Int → C) (sm : SMState) (tm : TMState) (tid item : String)
    (task : PickingTask)
    (ht : alookup tm.tasks tid = some task)
    (hst : ∀ st, get_current_subtask task = some st →
      st.subtaskType ≠ SubTaskType.waitPicking) :
    (handle_item_picked hs sm tm tid item).2 =
      PickAction.errorMsg "Not in WAIT_PICKING state" ∧
    ∃ task', alookup (handle_item_picked hs sm tm tid item).1.tasks tid = some task' ∧
      task'.currentSubtaskIdx = task.currentSubtaskIdx ∧
      task'.subtasks = task.subtasks ∧
      task'.itemsPicked = (if item ∈ task.itemsPicked then task.itemsPicked
        else task.itemsPicked ++ [item]) := by
  set task1 := (if item ∈ task.itemsPicked then task
    else { task with itemsPicked := task.itemsPicked ++ [item] }) with htask1
  have hsubs : task1.subtasks = task.subtasks := by
    by_cases hmem : item ∈ task.itemsPicked <;> simp [htask1, hmem]
  have hidx : task1.currentSubtaskIdx = task.currentSubtaskIdx := by
    by_cases hmem : item ∈ task.itemsPicked <;> simp [htask1, hmem]
  have hpicked : task1.itemsPicked = (if item ∈ task.itemsPicked
      then task.itemsPicked else task.itemsPicked ++ [item]) := by
    by_cases hmem : item ∈ task.itemsPicked <;> simp [htask1, hmem]
  have hcur : get_current_subtask task1 = get_current_subtask task := by
    simp [get_current_subtask, hsubs, hidx]
  have hres : handle_item_picked hs sm tm tid item =
      ({ tm with tasks := dupdate tm.tasks tid task1 },
        PickAction.errorMsg "Not in WAIT_PICKING state") := by
    unfold handle_item_picked
    rw [ht]
    simp only []
    rw [hcur]
    cases hc : get_current_subtask task with
    | none => rfl
    | some st =>
        have hne := hst st hc
        simp only [if_pos hne]
  rw [hres]
  refine ⟨rfl, task1, ?_, hidx, hsubs, hpicked⟩
  simp [alookup_dupdate_self]

/-- Concrete check of C3 (amended), on the `GO_TO_SHELF` fixture. -/
theorem handle_item_picked_wrong_state_witness :
    (handle_item_picked testH smEmpty tmC3 "T1" "A").2 =
      PickAction.errorMsg "Not in WAIT_PICKING state" ∧
    ∃ task', alookup (handle_item_picked testH smEmpty tmC3 "T1" "A").1.tasks
        "T1" = some task' ∧
      task'.currentSubtaskIdx = taskC3.currentSubtaskIdx ∧
      task'.subtasks = taskC3.subtasks ∧
      task'.itemsPicked = (if "A" ∈ taskC3.itemsPicked then taskC3.itemsPicked
        else taskC3.itemsPicked ++ ["A"]) :=
  handle_item_picked_wrong_state testH smEmpty tmC3 "T1" "A" taskC3 (by decide)
    (by
      intro st h
      have hst : st = subtaskGo := by
        have hgc : get_current_subtask taskC3 = some subtaskGo := rfl
        rw [hgc] at h
        simpa using h.symm
      rw [hst]
      decide)

/-! ## Task creation with unknown items (claim C4) -/

theorem dappend_ne_nil {α β : Type} [DecidableEq α] (l : List (α × List β))
    (k : α) (v : β) : dappend l k v ≠ [] := by
  cases l with
  | nil => simp [dappend]
  | cons p rest =>
      obtain ⟨k', vs⟩ := p
      by_cases h : k' = k <;> simp [dappend, h]

theorem findShelvesGo_eq_nil (i2s : List (String × Int)) :
    ∀ (items : List String) (acc : List (Int × List String)),
      findShelvesGo i2s items acc = [] ↔
        acc = [] ∧ ∀ i ∈ items, alookup i2s i = none := by
  intro items
  induction items with
  | nil => intro acc; simp [findShelvesGo]
  | cons item rest ih =>
      intro acc
      cases hl : alookup i2s item with
      | some sid =>
          simp only [findShelvesGo, hl]
          rw [ih]
          constructor
          · rintro ⟨h1, _⟩
            exact absurd h1 (dappend_ne_nil _ _ _)
          · rintro ⟨_, hall⟩
            have := hall item (List.mem_cons_self _ _)
            rw [hl] at this
            cases this
      | none =>
          simp only [findShelvesGo, hl]
          rw [ih]
          constructor
          · rintro ⟨h1, h2⟩
            refine ⟨h1, fun i hi => ?_⟩
            rcases List.mem_cons.1 hi with rfl | hi
            · exact hl
            · exact h2 i hi
          · rintro ⟨h1, h2⟩
            exact ⟨h1, fun i hi => h2 i (List.mem_cons_of_mem _ hi)⟩

theorem find_shelves_for_items_eq_nil (sm : SMState) (items : List String) :
    find_shelves_for_items sm items = [] ↔
      ∀ i ∈ items, alookup sm.itemToShelf i = none := by
  rw [find_shelves_for_items, findShelvesGo_eq_nil]
  simp

theorem registerDemands_tasks (tid : String) (ws : Int) :
    ∀ (l : List (Int × List String)) (tm : TMState),
      (registerDemands tid ws l tm).tasks = tm.tasks := by
  intro l
  induction l with
  | nil => intro tm; rfl
  | cons p rest ih =>
      obtain ⟨sid, its⟩ := p
      intro tm
      rw [registerDemands]
      exact ih _

/-- Task creation fails exactly when NO requested item maps to a shelf. -/
theorem create_task_none_iff {C : Type} [LinearOrder C] (hs : Int → Int → C)
    (sm : SMState) (tm : TMState) (tid : String) (ws : Int)
    (items : List String) :
    (create_task hs sm tm tid ws items).2 = none ↔
      ∀ i ∈ items, alookup sm.itemToShelf i = none := by
  rw [← find_shelves_for_items_eq_nil]
  unfold create_task
  by_cases h : find_shelves_for_items sm items = [] <;> simp [h]

/-- C4 as stated is false: a task requesting the mapped item `A` together
with the unmapped item `X` is NOT rejected — it is created (with `X`
silently dropped) and registered in the task store. -/
theorem create_task_partial_unknown_counterexample :
    alookup smC4.itemToShelf "X" = none ∧
    (create_task testH smC4 tm0 "T1" 50 ["A", "X"]).2.isSome = true ∧
    (alookup (create_task testH smC4 tm0 "T1" 50 ["A", "X"]).1.tasks "T1").isSome
      = true := by decide

/-- **C4 (amended).** Task creation fails — rejected without being
registered — exactly when NO requested item maps to a shelf (unmapped items
among mapped ones are silently skipped); on success the task is registered
under its id; and every request of a batch is processed regardless of
earlier failures: the batch creates exactly one task per request having at
least one mapped item. -/
theorem create_task_unknown_items {C : Type} [LinearOrder C] (hs : Int → Int → C)
    (sm : SMState) (tm : TMState) (tid : String) (ws : Int)
    (items : List String) :
    ((create_task hs sm tm tid ws items).2 = none ↔
      ∀ i ∈ items, alookup sm.itemToShelf i = none) ∧
    ((create_task hs sm tm tid ws items).2 = none →
      (create_task hs sm tm tid ws items).1 = tm) ∧
    (∀ t, (create_task hs sm tm tid ws items).2 = some t →
      alookup (create_task hs sm tm tid ws items).1.tasks tid = some t) ∧
    ∀ (reqs : List (String × Int × List String)) (tm' : TMState),
      (create_batch_tasks hs sm tm' reqs).2.length =
        (reqs.filter fun r =>
          decide (¬ ∀ i ∈ r.2.2, alookup sm.itemToShelf i = none)).length := by
  refine ⟨create_task_none_iff hs sm tm tid ws items, ?_, ?_, ?_⟩
  · intro h2
    have h := (create_task_none_iff hs sm tm tid ws items).1 h2
    rw [← find_shelves_for_items_eq_nil] at h
    unfold create_task
    simp [h]
  · intro t h2
    have h : ¬ find_shelves_for_items sm items = [] := by
      intro h
      rw [find_shelves_for_items_eq_nil] at h
      rw [(create_task_none_iff hs sm tm tid ws items).2 h] at h2
      cases h2
    unfold create_task at h2 ⊢
    simp only [if_neg h] at h2 ⊢
    simp only [Option.some.injEq] at h2
    rw [registerDemands_tasks]
    simp [alookup_dupdate_self, h2]
  · intro reqs
    induction reqs with
    | nil => intro tm'; simp [create_batch_tasks]
    | cons r rest ih =>
        intro tm'
        obtain ⟨tid', ws', items'⟩ := r
        by_cases hfail : ∀ i ∈ items', alookup sm.itemToShelf i = none
        · have hnone : (create_task hs sm tm' tid' ws' items').2 = none :=
            (create_task_none_iff hs sm tm' tid' ws' items').2 hfail
          simp only [create_batch_tasks]
          cases hct : create_task hs sm tm' tid' ws' items' with
          | mk tm1 ot =>
              have hot : ot = none := by rw [hct] at hnone; exact hnone
              subst hot
              simp only []
              rw [ih tm1]
              simp only [List.filter_cons, decide_eq_true_eq]
              rw [if_neg (by intro hh; exact hh hfail)]
        · have hsome : (create_task hs sm tm' tid' ws' items').2 ≠ none := by
            intro h
            exact hfail ((create_task_none_iff hs sm tm' tid' ws' items').1 h)
          simp only [create_batch_tasks]
          cases hct : create_task hs sm tm' tid' ws' items' with
          | mk tm1 ot =>
              cases ot with
              | none => rw [hct] at hsome; simp at hsome
              | some t =>
                  simp only []
                  cases hcb : create_batch_tasks hs sm tm1 rest with
                  | mk tm2 ts =>
                      have hlen := ih tm1
                      rw [hcb] at hlen
                      simp only [List.filter_cons, decide_eq_true_eq]
                      rw [if_pos hfail]
                      simp only [List.length_cons]
                      rw [hlen]

/-- Concrete check of C4 (amended): a request whose only item is unmapped is
rejected. -/
theorem create_task_unknown_items_witness :
    (create_task testH smC4 tm0 "T2" 50 ["X"]).2 = none :=
  ((create_task_unknown_items testH smC4 tm0 "T2" 50 ["X"]).1).2 (by decide)

end Warehouse
